import Mathlib

/-!
Verification of the knil nil-dereference analyzer (package `knil`).

The definitions below are a shallow embedding of the Go source:
* `nilness`, `merge`, `mergeNilnesses`, `nilnessOfValue`, `nilnessOf`
  embed `analyzer/knil/nilness.go`;
* `prune`, `generateStackFromKnownFacts`, the summary-update operations,
  `notNil`, the diagnose instruction scan and the dominance walk embed
  `analyzer/knil/knil.go`;
* `isExported` embeds the helper at the end of `analyzer/knil/knil.go`.

SSA values are represented by an inductive type carrying an integer
identity; Go pointer equality on `ssa.Value` becomes decidable equality
on that type.
-/

namespace Knil

/-- The three-valued nilness lattice, embedded as in the source:
`type nilness int` with `isnonnil = -1`, `unknown = 0`, `isnil = 1`. -/
abbrev nilness := Int

def isnonnil : nilness := -1

def unknown : nilness := 0

def isnil : nilness := 1

abbrev nilnesses := List nilness

/-- `merge` from nilness.go: `if a*b == unknown || a != b { return unknown }; return a`. -/
def merge (a b : nilness) : nilness :=
  if a * b = unknown ∨ a ≠ b then unknown else a

/-- `equal` from nilness.go: element-wise equality of two nilness vectors
(false on length mismatch). -/
def equal : nilnesses → nilnesses → Bool
  | [], [] => true
  | a :: as_, b :: bs => a == b && equal as_ bs
  | _, _ => false

/-- `mergeNilnesses` from nilness.go.  The Go function panics when the two
vectors have different lengths (`"inconsistent arguments count"`); the panic
is modelled by `none`. -/
def mergeNilnesses (na carg : nilnesses) : Option (nilnesses × Bool) :=
  if na.length ≠ carg.length then none
  else if equal na carg then some (na, false)
  else
    let nnn := List.zipWith merge na carg
    if equal na nnn then some (nnn, false) else some (nnn, true)

/-- Kind of a Go unary operator; only `token.MUL` (pointer load) is
distinguished by the analyzer. -/
inductive UnOpKind where
  | mul
  | otherU
  deriving DecidableEq

/-- Kind of a Go binary operator; only `token.EQL` and `token.NEQ` are
distinguished by `eq`. -/
inductive BinOpKind where
  | eql
  | neq
  | otherB
  deriving DecidableEq

/-- SSA values, with one constructor per `ssa` value kind that the analyzer
inspects.  The `id` fields model pointer identity of `ssa.Value`; `samePkg`
on `global` models `g.Pkg.Pkg == pass.Pkg`; `isNilLit` on `const` models
`(*ssa.Const).IsNil()`.  Values the analyzer never matches on
(parameters, phis, calls-as-values, ...) are `other`. -/
inductive SSAValue where
  | alloc (id : Nat)
  | fieldAddr (id : Nat)
  | freeVar (id : Nat)
  | function (id : Nat)
  | global (id : Nat) (samePkg : Bool)
  | indexAddr (id : Nat)
  | makeChan (id : Nat)
  | makeClosure (id : Nat)
  | makeInterface (id : Nat)
  | makeMap (id : Nat)
  | makeSlice (id : Nat)
  | builtin (id : Nat)
  | const (isNilLit : Bool) (id : Nat)
  | unop (op : UnOpKind) (x : SSAValue) (id : Nat)
  | binop (op : BinOpKind) (x y : SSAValue) (pos : Nat) (id : Nat)
  | extract (tupleId idx id : Nat)
  | other (id : Nat)
  deriving DecidableEq

/-- The identity of a value (models the `ssa.Value` pointer). -/
def vid : SSAValue → Nat
  | .alloc id => id
  | .fieldAddr id => id
  | .freeVar id => id
  | .function id => id
  | .global id _ => id
  | .indexAddr id => id
  | .makeChan id => id
  | .makeClosure id => id
  | .makeInterface id => id
  | .makeMap id => id
  | .makeSlice id => id
  | .builtin id => id
  | .const _ id => id
  | .unop _ _ id => id
  | .binop _ _ _ _ id => id
  | .extract _ _ id => id
  | .other id => id

/-- `nilnessOfValue` from nilness.go: a fact that a block is dominated by
the condition `v == nil` or `v != nil`. -/
structure nilnessOfValue where
  value : SSAValue
  niln : nilness
  deriving DecidableEq

/-- `negate` from nilness.go: `nilnessOfValue{f.value, -f.nilness}`. -/
def nilnessOfValue.negate (f : nilnessOfValue) : nilnessOfValue :=
  ⟨f.value, -f.niln⟩

/-- The stack search of `nilnessOf`: `for _, f := range stack { if f.value == v
{ return f.nilness } }` — Go `range` iterates from index 0 (the front of the
slice) toward the end. -/
def stackLookup : List nilnessOfValue → SSAValue → nilness
  | [], _ => unknown
  | f :: rest, v => if f.value = v then f.niln else stackLookup rest v

/-- `nilnessOf` from nilness.go: intrinsic nilness by value kind, constants
by their literal, otherwise the stack search. -/
def nilnessOf (stack : List nilnessOfValue) (v : SSAValue) : nilness :=
  match v with
  | .alloc _ => isnonnil
  | .fieldAddr _ => isnonnil
  | .freeVar _ => isnonnil
  | .function _ => isnonnil
  | .global _ _ => isnonnil
  | .indexAddr _ => isnonnil
  | .makeChan _ => isnonnil
  | .makeClosure _ => isnonnil
  | .makeInterface _ => isnonnil
  | .makeMap _ => isnonnil
  | .makeSlice _ => isnonnil
  | .builtin _ => isnonnil
  | .const isNilLit _ => if isNilLit then isnil else isnonnil
  | v => stackLookup stack v

/-- `nilnessesOf` from nilness.go: pointwise `nilnessOf`. -/
def nilnessesOf (stack : List nilnessOfValue) (vs : List SSAValue) : nilnesses :=
  vs.map (nilnessOf stack)

/-- The intrinsically non-nil value kinds (claim-side predicate used to
state C6; it lists exactly the cases of the first `switch` of `nilnessOf`). -/
def intrinsicallyNonNil : SSAValue → Bool
  | .alloc _ => true
  | .fieldAddr _ => true
  | .freeVar _ => true
  | .function _ => true
  | .global _ _ => true
  | .indexAddr _ => true
  | .makeChan _ => true
  | .makeClosure _ => true
  | .makeInterface _ => true
  | .makeMap _ => true
  | .makeSlice _ => true
  | .builtin _ => true
  | _ => false

/-- A value is handled by the two intrinsic branches of `nilnessOf`
(an intrinsically non-nil kind, or a constant). -/
def isIntrinsicOrConst (v : SSAValue) : Bool :=
  match v with
  | .const _ _ => true
  | v => intrinsicallyNonNil v

/-- The lookup the spec describes (for comparison with the source): scan the
stack from the end (most recently pushed) toward the front and return the
first matching entry. -/
def stackLookupSpecEndToFront (stack : List nilnessOfValue) (v : SSAValue) : nilness :=
  stackLookup stack.reverse v

/-- Modelled from the spec: the type `posToNilnesses` (a map from call- or
return-site position to a nilness vector) is referenced by knil.go and
facts.go but its definition is not among the source files.  Per §3 of the
spec it is a mapping from site key to NilnessVector; modelled as an
association list keyed by position. -/
abbrev posToNilnesses := List (Nat × nilnesses)

/-- Modelled from the spec: `posToNilness` (map from site position to a
single nilness, used for the receiver free variable), missing from the
source files. -/
abbrev posToNilness := List (Nat × nilness)

/-- Map lookup on a `posToNilnesses` (models `fact.na[pos]` with its `ok`
flag). -/
def findPos : posToNilnesses → Nat → Option nilnesses
  | [], _ => none
  | (p, v) :: rest, q => if p = q then some v else findPos rest q

/-- Map update on a `posToNilnesses` (models `fact.na[pos] = w`). -/
def setPos : posToNilnesses → Nat → nilnesses → posToNilnesses
  | [], q, w => [(q, w)]
  | (p, v) :: rest, q, w => if p = q then (q, w) :: rest else (p, v) :: setPos rest q w

/-- Map lookup on a `posToNilness`. -/
def findPosN : posToNilness → Nat → Option nilness
  | [], _ => none
  | (p, v) :: rest, q => if p = q then some v else findPosN rest q

/-- Map update on a `posToNilness`. -/
def setPosN : posToNilness → Nat → nilness → posToNilness
  | [], q, w => [(q, w)]
  | (p, v) :: rest, q, w => if p = q then (q, w) :: rest else (p, v) :: setPosN rest q w

/-- Modelled from the spec: the method `(posToNilnesses).length()`, missing
from the source files.  knil.go compares it against argument and parameter
counts and indexes the merged vector up to it, so it is the common length of
the recorded vectors; §3 of the spec states that every vector in the map has
the same length.  Modelled as the length of the first recorded vector
(0 for an empty map). -/
def ptnLength : posToNilnesses → Nat
  | [] => 0
  | (_, v) :: _ => v.length

/-- Modelled from the spec: `mergePosToNilnesses`, missing from the source
files.  Per §4.S (`merged_args()`), it is the positional meet of all
recorded vectors. -/
def mergePosToNilnesses : posToNilnesses → nilnesses
  | [] => []
  | (_, v) :: rest => rest.foldl (fun acc q => List.zipWith merge acc q.2) v

/-- `functionInfo` from facts.go: per-function fact with argument vectors
(`na`), return vectors (`nr`) keyed by site, and receiver free-variable
nilness (`rfv`) keyed by site. -/
structure functionInfo where
  na : posToNilnesses
  nr : posToNilnesses
  rfv : posToNilness
  deriving DecidableEq

/-- The `*ssa.Return` case of the summarize visit (knil.go): record this
return site's nilness vector in `fi.nr`.  Returns the new `nr` map and
whether the fact was updated (`updated`/export happened).  Note that an
existing entry at the site is overwritten with the new vector, not merged. -/
def updateReturnFacts (nr : posToNilnesses) (pos : Nat) (rns : nilnesses) :
    posToNilnesses × Bool :=
  if nr.length = 0 then
    if rns.length = 0 then (nr, false)
    else ([(pos, rns)], true)
  else
    match findPos nr pos with
    | some ns =>
      if ns = rns then (nr, false)
      else (setPos nr pos rns, true)
    | none => (setPos nr pos rns, true)

/-- The same-package `ssa.CallInstruction` case of the summarize visit
(knil.go): update the static callee's argument fact at this call site.
`argNils` is `nilnessesOf(stack, c.Args)`; `recvNil` is
`some (nilnessOf(stack, s.FreeVars[0]))` when the callee has free variables
and `none` otherwise.  `none` as result models the fatal
`panic("inconsistent arguments but not method closure")`.  In the branch
where the stored arity differs from the argument count by exactly one, the
Go code copies the struct (`newFact := fact`) but the copy shares the `na`
map, so after the in-place mutations `reflect.DeepEqual(newFact, fact)` is
always true and the branch records no update and exports nothing. -/
def updateCallFacts (fact : functionInfo) (pos : Nat) (argNils : nilnesses)
    (recvNil : Option nilness) : Option (functionInfo × Bool) :=
  if fact.na.length = 0 ∧ fact.rfv.length = 0 then
    some ({ fact with
            na := [(pos, argNils)],
            rfv := match recvNil with
                   | some rv => [(pos, rv)]
                   | none => [] }, true)
  else if ptnLength fact.na = argNils.length then
    if ptnLength fact.na = 0 then some (fact, false)
    else
      match findPos fact.na pos with
      | some na =>
        if na = argNils then
          match recvNil with
          | none => some (fact, false)
          | some rv =>
            match findPosN fact.rfv pos with
            | some rfv =>
              if rfv = rv then some (fact, false)
              else some ({ fact with rfv := setPosN fact.rfv pos rv }, true)
            | none =>
              some ({ fact with
                      na := setPos fact.na pos argNils,
                      rfv := setPosN fact.rfv pos rv }, true)
        else
          some ({ fact with
                  na := setPos fact.na pos argNils,
                  rfv := match recvNil with
                         | some rv => setPosN fact.rfv pos rv
                         | none => fact.rfv }, true)
      | none =>
        some ({ fact with
                na := setPos fact.na pos argNils,
                rfv := match recvNil with
                       | some rv => setPosN fact.rfv pos rv
                       | none => fact.rfv }, true)
  else if ((ptnLength fact.na : Int) - (argNils.length : Int)).natAbs ≠ 1 then none
  else some (fact, false)

/-- `generateStackFromKnownFacts` from knil.go: seed the entry fact stack of
a function from its own argument summary `ptns`.  `none` models the fatal
`panic("inconsistent arguments but not method closure")` (including the
out-of-range access of `fn.FreeVars[0]` when the function has no free
variables). -/
def generateStackFromKnownFacts (params freeVars : List SSAValue)
    (ptns : posToNilnesses) : Option (List nilnessOfValue) :=
  if ptnLength ptns = 0 then some []
  else if params.length = ptnLength ptns then
    some ((params.zip (mergePosToNilnesses ptns)).map fun pv => ⟨pv.1, pv.2⟩)
  else if (ptnLength ptns : Int) - (params.length : Int) ≠ 1 then none
  else
    match freeVars with
    | [] => none
    | fv :: _ =>
      let merged := mergePosToNilnesses ptns
      some (⟨fv, merged.getD 0 unknown⟩ ::
        (params.zip merged.tail).map fun pv => ⟨pv.1, pv.2⟩)

/-- `isExported` from knil.go: scans the runes of the function name and
returns true as soon as one is upper-case.  (`unicode.IsUpper` is modelled
by `Char.isUpper`.) -/
def isExported : List Char → Bool
  | [] => false
  | c :: rest => if c.isUpper then true else isExported rest

/-- Definition following the spec's words (for comparison with the source):
exported means the name begins with an upper-case letter. -/
def isExportedSpecLeadingUpper : List Char → Bool
  | [] => false
  | c :: _ => c.isUpper

/-- What the diagnose half of `checkFunc` does before visiting the entry
block. -/
inductive EntryAction where
  | skip
  | visitWith (stack : List nilnessOfValue)
  | panicked
  deriving DecidableEq

/-- The entry logic of the diagnose half of `checkFunc` (knil.go): if the
function has no object, visit with an empty stack; if its own argument
summary is empty, visit (with an empty stack) only when the function is
exported, else skip; otherwise seed the stack from the summary. -/
def diagnoseEntry (foName : Option (List Char)) (paNa : posToNilnesses)
    (params freeVars : List SSAValue) : EntryAction :=
  match foName with
  | none => .visitWith []
  | some name =>
    if ptnLength paNa = 0 then
      if isExported name then .visitWith [] else .skip
    else
      match generateStackFromKnownFacts params freeVars paNa with
      | none => .panicked
      | some st => .visitWith st

/-- `eq` from nilness.go: if the block ends in an `If` whose condition is a
`BinOp` with op `EQL` or `NEQ`, return the comparison together with its true
(equal) and false (not equal) successors.  `term` is the condition of the
final `If` instruction when there is one; `succs` is the block's successor
list. -/
def eqTerm (term : Option SSAValue) (succs : List Nat) :
    Option (BinOpKind × SSAValue × SSAValue × Nat × Nat × Nat) :=
  match term with
  | some (.binop op x y pos _) =>
    match op, succs with
    | .eql, s0 :: s1 :: _ => some (.eql, x, y, pos, s0, s1)
    | .neq, s0 :: s1 :: _ => some (.neq, x, y, pos, s1, s0)
    | _, _ => none
  | _ => none

/-- A `cond` diagnostic emitted by `prune`. -/
structure CondDiag where
  pos : Nat
  adj : String
  deriving DecidableEq

/-- `prune` from `checkFunc` (knil.go).  `preds b` is the predecessor count
of block `b`; `dominees` are the dominees of the current block.  The result
is `none` when the block is not a nil-comparison block (the caller then
descends into every dominee with the current stack), and otherwise the list
of `(block, stack)` recursive visits together with the `cond` diagnostics
emitted (empty in summarize mode, `onlyCheck = true`). -/
def prune (preds : Nat → Nat) (onlyCheck : Bool) (term : Option SSAValue)
    (succs dominees : List Nat) (stack : List nilnessOfValue) :
    Option (List (Nat × List nilnessOfValue) × List CondDiag) :=
  match eqTerm term succs with
  | none => none
  | some (op, x, y, pos, tsucc, fsucc) =>
    let xnil := nilnessOf stack x
    let ynil := nilnessOf stack y
    if ynil ≠ unknown ∧ xnil ≠ unknown ∧ (xnil = isnil ∨ ynil = isnil) then
      let diags : List CondDiag :=
        if onlyCheck then []
        else
          [⟨pos, if (decide (xnil = ynil)) = (decide (op = .eql))
                 then "tautological" else "impossible"⟩]
      let skip := if xnil = ynil then fsucc else tsucc
      some (((dominees.filter fun d => !(d = skip ∧ preds d = 1 : Bool)).map
        fun d => (d, stack)), diags)
    else if xnil = isnil ∨ ynil = isnil then
      let f : nilnessOfValue := if xnil = isnil then ⟨y, isnil⟩ else ⟨x, isnil⟩
      some ((dominees.map fun d =>
        (d, if preds d = 1 then
              if d = tsucc then stack ++ [f]
              else if d = fsucc then stack ++ [f.negate]
              else stack
            else stack)), [])
    else none

/-- A referrer of an SSA value: an instruction identity together with the
value it denotes when the instruction is itself an `ssa.Value` (`none` for
non-value instructions such as stores). -/
structure RefNode where
  rid : Nat
  asValue : Option SSAValue
  deriving DecidableEq

/-- Static environment of the diagnose walk: the referrer lists of the SSA
graph (`v.Referrers()`, `none` when the node has no referrer list). -/
structure DiagEnv where
  referrers : Nat → Option (List RefNode)

/-- Mutable state threaded through the diagnose walk: emitted `nilderef`
reports, exported `alreadyReportedGlobal` markers (global object ids),
the `alreadyReported` instruction set, and the `functionInfo` object-fact
store (function object id to fact). -/
structure DiagState where
  reports : List (Nat × String)
  reportedGlobals : List Nat
  alreadyReported : List Nat
  funcFacts : List (Nat × functionInfo)
  deriving DecidableEq

/-- Object-fact lookup for a function (`pass.ImportObjectFact` into a fresh
`functionInfo`, which leaves the zero value when no fact is stored). -/
def lookupFI (store : List (Nat × functionInfo)) (fo : Nat) : functionInfo :=
  match store with
  | [] => ⟨[], [], []⟩
  | (k, fi) :: rest => if k = fo then fi else lookupFI rest fo

/-- The referrer-widening loop of `notNil` (knil.go): starting from the
reported value's referrers, mark each unvisited referrer as already
reported and collect its own referrers, one layer at a time, until a layer
adds nothing.  The loop is fuelled; the marked set grows monotonically so
any fuel at least the number of nodes is enough.  (The Go loop also
overwrites the reported value's referrer slice in place; that mutation of
the SSA graph is not modelled — it affects no claim here.) -/
def suppressReferrers (env : DiagEnv) :
    Nat → List RefNode → List Nat → List Nat
  | 0, _, already => already
  | fuel + 1, worklist, already =>
    let step := worklist.foldl
      (fun (acc : List Nat × List RefNode) vr =>
        if vr.rid ∈ acc.1 then acc
        else (vr.rid :: acc.1, acc.2 ++ (env.referrers vr.rid).getD []))
      (already, [])
    if step.2.isEmpty then step.1
    else suppressReferrers env fuel step.2 step.1

/-- The root-cause marker target of `notNil`: `v` is a `*ssa.UnOp` whose
operand is a `*ssa.Global` of the current package. -/
def globalMarkTarget : SSAValue → Option Nat
  | .unop _ (.global g samePkg) _ => if samePkg then some g else none
  | _ => none

/-- `notNil` from the diagnose half of `checkFunc` (knil.go): if the operand
may be nil, report a `nilderef` diagnostic, then apply root-cause
suppression — export an `alreadyReportedGlobal` marker when the operand is
a unary op on a same-package global, otherwise widen over the operand's
referrers marking them already reported. -/
def notNil (env : DiagEnv) (fuel : Nat) (stack : List nilnessOfValue)
    (st : DiagState) (pos : Nat) (v : SSAValue) (descr : String) : DiagState :=
  if nilnessOf stack v = isnonnil then st
  else
    let st1 := { st with reports := st.reports ++ [(pos, "nil dereference in " ++ descr)] }
    match globalMarkTarget v with
    | some g => { st1 with reportedGlobals := g :: st1.reportedGlobals }
    | none =>
      match env.referrers (vid v) with
      | none => st1
      | some vrs =>
        { st1 with alreadyReported := suppressReferrers env fuel vrs st1.alreadyReported }

/-- The shape of one instruction, restricted to the fields the diagnose scan
of `checkFunc` inspects. -/
inductive InstrKind where
  | callK (self : SSAValue) (isVal : Bool) (callee : SSAValue) (descr : String)
      (calleeObj : Option Nat)
  | fieldAddrK (self x : SSAValue)
  | mapUpdateK (mp : SSAValue)
  | sliceK (x : SSAValue) (ptrToArray : Bool)
  | storeK (addr : SSAValue)
  | typeAssertK (x : SSAValue) (commaOk : Bool)
  | unOpK (self : SSAValue)
  | returnK (results : List SSAValue)
  | otherK (firstOp : Option SSAValue)
  deriving DecidableEq

/-- An instruction: identity (pointer), source position, and kind. -/
structure Instr where
  iid : Nat
  pos : Nat
  kind : InstrKind
  deriving DecidableEq

/-- `instr.Operands(rands[:0])[0]`: the first operand of each instruction
kind (callee operand for calls, `X` for field address / slice / type assert
/ unary op, `Map` for map update, `Addr` for store). -/
def firstOperand (i : Instr) : Option SSAValue :=
  match i.kind with
  | .callK _ _ callee _ _ => some callee
  | .fieldAddrK _ x => some x
  | .mapUpdateK mp => some mp
  | .sliceK x _ => some x
  | .storeK addr => some addr
  | .typeAssertK x _ => some x
  | .unOpK self =>
    match self with
    | .unop _ x _ => some x
    | _ => none
  | .returnK results => results.head?
  | .otherK firstOp => firstOp

/-- Whether an instruction's first operand is a unary op on the global with
object id `g` (the shape the already-reported skip matches). -/
def firstOpUnOpOfGlobal (g : Nat) (i : Instr) : Bool :=
  match firstOperand i with
  | some (.unop _ (.global g' _) _) => g' == g
  | _ => false

/-- The referrer loop of the call case of the diagnose scan (knil.go): for
each referrer of the call value, push a fact for an `*ssa.Extract` referrer
(one merged return position per extract, counted by `c`), push the call
value itself for any other value referrer after asserting the returns
summary has exactly one position (`none` models
`panic("inconsistent return values count")`), and skip non-value
referrers. -/
def pushCallReturns (self : SSAValue) (nrLen : Nat) (merged : nilnesses) :
    List RefNode → List nilnessOfValue → Nat → Option (List nilnessOfValue)
  | [], stack, _ => some stack
  | vr :: rest, stack, c =>
    match vr.asValue with
    | some (.extract t k eid) =>
      pushCallReturns self nrLen merged rest
        (stack ++ [⟨.extract t k eid, merged.getD c unknown⟩]) (c + 1)
    | some _ =>
      if nrLen ≠ 1 then none
      else pushCallReturns self nrLen merged rest
        (stack ++ [⟨self, merged.getD 0 unknown⟩]) c
    | none => pushCallReturns self nrLen merged rest stack c

/-- The first guard of the diagnose instruction scan (knil.go): the
instruction is skipped when its first operand is a `*ssa.UnOp` whose
operand is a global bearing the `alreadyReportedGlobal` marker. -/
def diagSkipMarked (st : DiagState) (i : Instr) : Bool :=
  match firstOperand i with
  | some (.unop _ (.global g _) _) => g ∈ st.reportedGlobals
  | _ => false

/-- The static-callee part of the call case of the diagnose scan (knil.go):
with the state `st1` after the nil-check of the call target, look up the
callee's `functionInfo` and, when the call is a value and the callee has a
known returns-summary, push the merged return nilness onto the fact stack
via the call value's referrers (`pushCallReturns`).  `none` models the
fatal `panic("inconsistent return values count")`. -/
def diagCallCase (env : DiagEnv) (self : SSAValue) (isVal : Bool)
    (calleeObj : Option Nat) (stack : List nilnessOfValue) (st1 : DiagState) :
    Option (List nilnessOfValue × DiagState) :=
  match calleeObj with
  | none => some (stack, st1)
  | some fo =>
    if isVal ∧ 0 < ptnLength (lookupFI st1.funcFacts fo).nr then
      match env.referrers (vid self) with
      | none => some (stack, st1)
      | some vrs =>
        match pushCallReturns self (ptnLength (lookupFI st1.funcFacts fo).nr)
            (mergePosToNilnesses (lookupFI st1.funcFacts fo).nr) vrs stack 0 with
        | none => none
        | some stack2 => some (stack2, st1)
    else some (stack, st1)

/-- The kind dispatch of the diagnose instruction scan of `checkFunc`
(knil.go): check the relevant operand with `notNil` and, for calls with a
known returns-summary, push the callee's merged return nilness onto the
fact stack via the call value's referrers.  `none` models the fatal
`panic("inconsistent return values count")`. -/
def diagDispatch (env : DiagEnv) (fuel : Nat) (i : Instr)
    (stack : List nilnessOfValue) (st : DiagState) :
    Option (List nilnessOfValue × DiagState) :=
  match i.kind with
    | .callK self isVal callee descr calleeObj =>
      diagCallCase env self isVal calleeObj stack
        (notNil env fuel stack st i.pos callee descr)
    | .fieldAddrK _ x => some (stack, notNil env fuel stack st i.pos x "field selection")
    | .mapUpdateK mp => some (stack, notNil env fuel stack st i.pos mp "map update")
    | .sliceK x ptrToArray =>
      if ptrToArray then some (stack, notNil env fuel stack st i.pos x "slice operation")
      else some (stack, st)
    | .storeK addr => some (stack, notNil env fuel stack st i.pos addr "store")
    | .typeAssertK x commaOk =>
      if commaOk then some (stack, st)
      else some (stack, notNil env fuel stack st i.pos x "type assertion")
    | .unOpK self =>
      match self with
      | .unop op x _ =>
        if op = .mul then some (stack, notNil env fuel stack st i.pos x "load")
        else some (stack, st)
      | _ => some (stack, st)
    | .returnK _ => some (stack, st)
    | .otherK _ => some (stack, st)

/-- One iteration of the diagnose instruction scan of `checkFunc` (knil.go):
skip the instruction when its first operand loads a marker-bearing global
(`diagSkipMarked`), skip it when it is already reported, and otherwise
dispatch on the instruction kind (`diagDispatch`). -/
def diagStep (env : DiagEnv) (fuel : Nat) (i : Instr)
    (stack : List nilnessOfValue) (st : DiagState) :
    Option (List nilnessOfValue × DiagState) :=
  if diagSkipMarked st i then some (stack, st)
  else if i.iid ∈ st.alreadyReported then some (stack, st)
  else diagDispatch env fuel i stack st

/-- The diagnose instruction scan over a sequence of instructions (the
program-order concatenation of the scanned blocks), threading the fact
stack and the pass state. -/
def diagLoop (env : DiagEnv) (fuel : Nat) :
    List Instr → List nilnessOfValue → DiagState →
    Option (List nilnessOfValue × DiagState)
  | [], stack, st => some (stack, st)
  | i :: rest, stack, st =>
    match diagStep env fuel i stack st with
    | none => none
    | some (stack', st') => diagLoop env fuel rest stack' st'

/-- The diagnose half of `checkFunc` (knil.go): decide the entry action from
the function's own summary, run the instruction scan, and return `false`
(the diagnose pass never reports a summary update).  `none` models a fatal
panic. -/
def checkFuncDiagnose (env : DiagEnv) (fuel : Nat) (foName : Option (List Char))
    (paNa : posToNilnesses) (params freeVars : List SSAValue)
    (instrs : List Instr) (st : DiagState) : Option (DiagState × Bool) :=
  match diagnoseEntry foName paNa params freeVars with
  | .skip => some (st, false)
  | .panicked => none
  | .visitWith stack =>
    (diagLoop env fuel instrs stack st).map fun p => (p.2, false)

/-- The dominance-order walk of `checkFunc` (knil.go): `seen[b.Index]`
guards each visit; an unseen block is marked and its dominees are visited
recursively.  The walk state is the `seen` set and the trace of blocks whose
body was processed; recursion is fuelled (the `seen` guard makes any fuel at
least the number of blocks sufficient, which `C9` proves). -/
def visitWalk {n : Nat} (dominees : Fin n → List (Fin n)) :
    Nat → Fin n → Finset (Fin n) × List (Fin n) → Finset (Fin n) × List (Fin n)
  | 0, _, s => s
  | fuel + 1, b, (seen, trace) =>
    if b ∈ seen then (seen, trace)
    else (dominees b).foldl (fun acc d => visitWalk dominees fuel d acc)
      (insert b seen, trace ++ [b])

/-! ### Helper lemmas -/

theorem stackLookup_eq_find (stack : List nilnessOfValue) (v : SSAValue) :
    stackLookup stack v =
      ((stack.find? fun f => f.value == v).map nilnessOfValue.niln).getD unknown := by
  induction stack with
  | nil => rfl
  | cons f rest ih =>
    by_cases h : f.value = v
    · simp [stackLookup, List.find?, h]
    · simp only [stackLookup, List.find?, if_neg h]
      rw [show (f.value == v) = false by simpa using h]
      exact ih

theorem nilnessOf_eq_stackLookup (stack : List nilnessOfValue) (v : SSAValue)
    (h : isIntrinsicOrConst v = false) : nilnessOf stack v = stackLookup stack v := by
  cases v <;> first
    | rfl
    | simp [isIntrinsicOrConst, intrinsicallyNonNil] at h

theorem merge_cases (a b : nilness) : merge a b = unknown ∨ merge a b = a := by
  unfold merge
  split
  · exact Or.inl rfl
  · exact Or.inr rfl

theorem merge_unknown_left (b : nilness) : merge unknown b = unknown := by
  simp [merge, unknown]

theorem equal_iff (a b : nilnesses) : equal a b = true ↔ a = b := by
  induction a generalizing b with
  | nil => cases b <;> simp [equal]
  | cons x xs ih =>
    cases b with
    | nil => simp [equal]
    | cons y ys => simp [equal, ih]

theorem zipWith_merge_getD (na carg : nilnesses) (i : Nat) (hi : i < na.length)
    (hlen : na.length = carg.length) :
    (List.zipWith merge na carg).getD i unknown =
      merge (na.getD i unknown) (carg.getD i unknown) := by
  induction na generalizing carg i with
  | nil => simp at hi
  | cons a as ih =>
    cases carg with
    | nil => simp at hlen
    | cons c cs =>
      cases i with
      | zero => rfl
      | succ j =>
        simp only [List.zipWith, List.getD_cons_succ]
        exact ih cs j (by simpa using hi) (by simpa using hlen)

theorem findPos_setPos (nr : posToNilnesses) (pos : Nat) (rns : nilnesses) :
    findPos (setPos nr pos rns) pos = some rns := by
  induction nr with
  | nil => simp [setPos, findPos]
  | cons hd tl ih =>
    by_cases h : hd.1 = pos
    · simp [setPos, findPos, h]
    · simp [setPos, findPos, h, ih]

/-! ### C1 -/

/-- C1, counterexample.  The claim states that `lookup` scans the fact stack
from the most recently pushed entry (the end) toward the front; but
`nilnessOf` iterates `range stack` from index 0, so with two entries for the
same value it returns the front (oldest) entry, where an end-to-front scan
would return the newest. -/
theorem C1_counterexample :
    nilnessOf [⟨.other 0, isnil⟩, ⟨.other 0, isnonnil⟩] (.other 0) = isnil ∧
    stackLookupSpecEndToFront [⟨.other 0, isnil⟩, ⟨.other 0, isnonnil⟩] (.other 0) = isnonnil ∧
    isnil ≠ isnonnil := by
  refine ⟨rfl, rfl, by decide⟩

/-- C1, amended: for an SSA value that is neither a constant nor
intrinsically non-nil, `nilnessOf` returns the nilness of the first matching
entry found scanning the stack from the FRONT toward the end (i.e. the
earliest-pushed match wins), and `unknown` if no entry's value equals `v`. -/
theorem C1_amended (stack : List nilnessOfValue) (v : SSAValue)
    (h : isIntrinsicOrConst v = false) :
    nilnessOf stack v =
      ((stack.find? fun f => f.value == v).map nilnessOfValue.niln).getD unknown := by
  rw [nilnessOf_eq_stackLookup stack v h]
  exact stackLookup_eq_find stack v

theorem C1_amended_witness :
    nilnessOf [⟨.other 5, isnil⟩] (.other 5) =
      ((([⟨.other 5, isnil⟩] : List nilnessOfValue).find?
        fun f => f.value == .other 5).map nilnessOfValue.niln).getD unknown :=
  C1_amended [⟨.other 5, isnil⟩] (.other 5) (by decide)

/-! ### C2 -/

/-- C2, counterexample.  The claim states that once a recorded position is
Unknown it never becomes Nil or NonNil again; but the summarize visit
overwrites the stored vector at a site with the newest observation
(`fi.nr[instr.Pos()] = rns`), so a stored `[unknown]` becomes `[isnil]`. -/
theorem C2_counterexample :
    findPos [(0, [unknown])] 0 = some [unknown] ∧
    findPos (updateReturnFacts [(0, [unknown])] 0 [isnil]).1 0 = some [isnil] ∧
    (updateReturnFacts [(0, [unknown])] 0 [isnil]).2 = true ∧
    updateCallFacts ⟨[(0, [unknown])], [], []⟩ 0 [isnil] none =
      some (⟨[(0, [isnil])], [], []⟩, true) ∧
    unknown ≠ isnil := by
  refine ⟨rfl, by decide, by decide, by decide, by decide⟩

/-- C2, amended: the `merge`/`mergeNilnesses` operations themselves are
monotone toward Unknown — a merge result is either Unknown or the first
operand, and a position that is Unknown stays Unknown under
`mergeNilnesses` — but the per-site recording of `checkFunc` replaces the
stored vector with the newest observation wholesale, for the return-site
update as well as for the same-arity call-site argument update, so a
recorded position can move from Unknown back to Nil or NonNil across
fixpoint rounds. -/
theorem C2_amended :
    (∀ a b : nilness, merge a b = unknown ∨ merge a b = a) ∧
    (∀ (na carg r : nilnesses) (u : Bool) (i : Nat),
      mergeNilnesses na carg = some (r, u) → i < na.length →
      na.getD i unknown = unknown → r.getD i unknown = unknown) ∧
    (∀ (nr : posToNilnesses) (pos : Nat) (rns ns : nilnesses),
      findPos nr pos = some ns →
      findPos (updateReturnFacts nr pos rns).1 pos = some rns) ∧
    (∀ (fact : functionInfo) (pos : Nat) (argNils ns : nilnesses),
      ptnLength fact.na ≠ 0 →
      ptnLength fact.na = argNils.length →
      findPos fact.na pos = some ns →
      ∃ fact' u, updateCallFacts fact pos argNils none = some (fact', u) ∧
        findPos fact'.na pos = some argNils) := by
  refine ⟨merge_cases, ?_, ?_, ?_⟩
  · intro na carg r u i hm hi hu
    unfold mergeNilnesses at hm
    by_cases hlen : na.length ≠ carg.length
    · simp [hlen] at hm
    · push_neg at hlen
      rw [if_neg (by omega)] at hm
      by_cases heq : equal na carg = true
      · rw [if_pos heq] at hm
        simp only [Option.some_inj, Prod.mk.injEq] at hm
        rw [← hm.1, hu]
      · rw [if_neg heq] at hm
        have hr : r = List.zipWith merge na carg := by
          dsimp only at hm
          split at hm <;> simp only [Option.some_inj, Prod.mk.injEq] at hm <;>
            exact hm.1.symm
        rw [hr, zipWith_merge_getD na carg i hi hlen, hu, merge_unknown_left]
  · intro nr pos rns ns h
    unfold updateReturnFacts
    cases nr with
    | nil => simp [findPos] at h
    | cons hd tl =>
      rw [if_neg (by simp)]
      rw [h]
      by_cases hns : ns = rns
      · simp only [if_pos hns]
        rw [← hns]
        exact h
      · simp only [if_neg hns]
        exact findPos_setPos _ pos rns
  · intro fact pos argNils ns h0 hlen hfind
    have hna : fact.na ≠ [] := by
      intro hnil
      rw [hnil] at hfind
      simp [findPos] at hfind
    have hcond : ¬(fact.na.length = 0 ∧ fact.rfv.length = 0) := by
      rintro ⟨h1, _⟩
      exact hna (List.length_eq_zero.mp h1)
    by_cases hEq : ns = argNils
    · refine ⟨fact, false, ?_, ?_⟩
      · unfold updateCallFacts
        rw [if_neg hcond, if_pos hlen, if_neg h0, hfind]
        simp [hEq]
      · rw [← hEq]
        exact hfind
    · refine ⟨{ fact with na := setPos fact.na pos argNils }, true, ?_, ?_⟩
      · unfold updateCallFacts
        rw [if_neg hcond, if_pos hlen, if_neg h0, hfind]
        simp [hEq]
      · exact findPos_setPos _ pos argNils

theorem C2_amended_witness :
    (merge isnil isnonnil = unknown ∨ merge isnil isnonnil = isnil) ∧
    ([unknown] : nilnesses).getD 0 unknown = unknown ∧
    findPos (updateReturnFacts [(3, [isnil])] 3 [isnonnil]).1 3 = some [isnonnil] ∧
    (∃ fact' u, updateCallFacts ⟨[(3, [isnil])], [], []⟩ 3 [isnonnil] none = some (fact', u) ∧
      findPos fact'.na 3 = some [isnonnil]) :=
  ⟨C2_amended.1 isnil isnonnil,
   C2_amended.2.1 [unknown] [isnil] [unknown] false 0 (by decide) (by decide) (by decide),
   C2_amended.2.2.1 [(3, [isnil])] 3 [isnonnil] [isnil] (by decide),
   C2_amended.2.2.2 ⟨[(3, [isnil])], [], []⟩ 3 [isnonnil] [isnil] (by decide) (by decide)
     (by decide)⟩

/-! ### C5 -/

/-- C5, counterexample.  The claim defines "exported" as "begins with an
upper-case letter"; but `isExported` scans all runes and returns true on the
first upper-case one anywhere, so a function named `aB` with an empty
summary is diagnosed although its name does not begin with an upper-case
letter. -/
theorem C5_counterexample :
    diagnoseEntry (some ['a', 'B']) [] [] [] = .visitWith [] ∧
    isExportedSpecLeadingUpper ['a', 'B'] = false := by
  refine ⟨by decide, by decide⟩

/-- C5, amended: in the diagnose pass a procedure (with a function object)
whose own argument summary is empty is skipped entirely iff it is not
exported, where "exported" means the name CONTAINS an upper-case letter
anywhere; exported procedures with empty summaries are still diagnosed
(visited with an empty stack). -/
theorem C5_amended (name : List Char) (paNa : posToNilnesses)
    (params freeVars : List SSAValue) (h : ptnLength paNa = 0) :
    (diagnoseEntry (some name) paNa params freeVars = .skip ↔ isExported name = false) ∧
    (isExported name = true →
      diagnoseEntry (some name) paNa params freeVars = .visitWith []) := by
  cases hE : isExported name <;> simp [diagnoseEntry, h, hE]

theorem C5_amended_witness :
    (diagnoseEntry (some ['f', 'o', 'o']) [] [] [] = .skip ↔
      isExported ['f', 'o', 'o'] = false) ∧
    (isExported ['f', 'o', 'o'] = true →
      diagnoseEntry (some ['f', 'o', 'o']) [] [] [] = .visitWith []) :=
  C5_amended ['f', 'o', 'o'] [] [] [] (by decide)

/-! ### C6 -/

/-- C6: values of the intrinsically non-nil kinds (stack allocation,
field address, free variable, function, global, index address, channel /
closure / interface / map / slice creation, builtin) look up as NonNil on
every stack and never produce a `nilderef` diagnostic; a constant looks up
as Nil iff it is the null literal; any value outside these classes yields
Unknown on the empty stack. -/
theorem C6_intrinsic (stack : List nilnessOfValue) (v : SSAValue) :
    (intrinsicallyNonNil v = true →
      nilnessOf stack v = isnonnil ∧
      ∀ (env : DiagEnv) (fuel : Nat) (st : DiagState) (pos : Nat) (descr : String),
        notNil env fuel stack st pos v descr = st) ∧
    (∀ (b : Bool) (id : Nat),
      nilnessOf stack (.const b id) = if b then isnil else isnonnil) ∧
    (∀ (op : UnOpKind) (x : SSAValue) (id : Nat),
      nilnessOf [] (.unop op x id) = unknown) ∧
    (∀ (op : BinOpKind) (x y : SSAValue) (p id : Nat),
      nilnessOf [] (.binop op x y p id) = unknown) ∧
    (∀ (t k id : Nat), nilnessOf [] (.extract t k id) = unknown) ∧
    (∀ (id : Nat), nilnessOf [] (.other id) = unknown) := by
  refine ⟨?_, ?_, ?_, ?_, ?_, ?_⟩
  · intro h
    have h1 : nilnessOf stack v = isnonnil := by
      cases v <;> first
        | rfl
        | simp [intrinsicallyNonNil] at h
    exact ⟨h1, fun env fuel st pos descr => by simp [notNil, h1]⟩
  · intro b id; rfl
  · intro op x id; rfl
  · intro op x y p id; rfl
  · intro t k id; rfl
  · intro id; rfl

theorem C6_intrinsic_witness :
    nilnessOf [] (.makeMap 7) = isnonnil :=
  ((C6_intrinsic [] (.makeMap 7)).1 (by decide)).1

/-! ### C8 -/

/-- C8, counterexample.  The claim states that a difference of exactly one
between the recorded argument-vector length and the parameter count is
accepted when seeding a procedure's entry facts; but
`generateStackFromKnownFacts` only accepts `stored = params + 1`
(`pa.na.length()-len(fn.Params) != 1` panics), so a stored length one LESS
than the parameter count — here 1 stored vs 2 parameters — hits the fatal
assertion although the difference is exactly one. -/
theorem C8_counterexample :
    generateStackFromKnownFacts [.other 1, .other 2] [.other 9] [(0, [unknown])] = none ∧
    ((ptnLength [(0, [unknown])] : Int) -
      (([SSAValue.other 1, .other 2] : List SSAValue).length : Int)).natAbs = 1 := by
  refine ⟨by decide, by decide⟩

/-- C8, amended: at a call site (with a non-empty stored fact and a stored
arity different from the argument count), the analyzer fails with the fatal
assertion iff the lengths differ by more than one — a difference of exactly
one is accepted as the method-value closure case.  When seeding a
procedure's entry facts, a non-empty stored summary is accepted only when
its length equals the parameter count or exceeds it by exactly one; a
stored length one less than the parameter count also fails with the fatal
assertion. -/
theorem C8_amended :
    (∀ (fact : functionInfo) (pos : Nat) (argNils : nilnesses) (recvNil : Option nilness),
      ¬(fact.na.length = 0 ∧ fact.rfv.length = 0) →
      ptnLength fact.na ≠ argNils.length →
      (updateCallFacts fact pos argNils recvNil = none ↔
        ((ptnLength fact.na : Int) - (argNils.length : Int)).natAbs ≠ 1)) ∧
    (∀ (params : List SSAValue) (fv : SSAValue) (fvs : List SSAValue)
        (ptns : posToNilnesses),
      generateStackFromKnownFacts params (fv :: fvs) ptns = none ↔
        (ptnLength ptns ≠ 0 ∧ ptnLength ptns ≠ params.length ∧
          (ptnLength ptns : Int) - (params.length : Int) ≠ 1)) := by
  constructor
  · intro fact pos argNils recvNil h1 h2
    unfold updateCallFacts
    rw [if_neg h1, if_neg h2]
    split <;> simp_all
  · intro params fv fvs ptns
    unfold generateStackFromKnownFacts
    by_cases h0 : ptnLength ptns = 0
    · simp [h0]
    · rw [if_neg h0]
      by_cases hp : params.length = ptnLength ptns
      · simp [hp, if_pos hp]
      · rw [if_neg hp]
        by_cases hd : (ptnLength ptns : Int) - (params.length : Int) ≠ 1
        · simp [hd, h0]
          omega
        · simp only [if_neg hd]
          push_neg at hd
          simp [hd]

theorem C8_amended_witness :
    (updateCallFacts ⟨[(0, [unknown, unknown, unknown])], [], []⟩ 0 [unknown] none = none ↔
      ((ptnLength [(0, [unknown, unknown, unknown])] : Int) -
        (([unknown] : nilnesses).length : Int)).natAbs ≠ 1) ∧
    (generateStackFromKnownFacts [] [.other 0] [(0, [unknown])] = none ↔
      (ptnLength [(0, [unknown])] ≠ 0 ∧
        ptnLength [(0, [unknown])] ≠ ([] : List SSAValue).length ∧
        (ptnLength [(0, [unknown])] : Int) - (([] : List SSAValue).length : Int) ≠ 1)) :=
  ⟨C8_amended.1 ⟨[(0, [unknown, unknown, unknown])], [], []⟩ 0 [unknown] none
      (by decide) (by decide),
   C8_amended.2 [] (.other 0) [] [(0, [unknown])]⟩

/-! ### C3, C4 -/

theorem neg_isnil_eq : -isnil = isnonnil := by decide

/-- C3: on a block terminating in a nil comparison whose operands' nilness
are both known with at least one Nil, the walker emits (in Diagnose mode
only) a `cond` diagnostic whose adjective is "tautological" exactly when
`(xnil = ynil)` agrees with `(op = EQL)` and "impossible" otherwise, and in
both modes descends exactly into the dominees other than the unreachable
successor-with-a-single-predecessor: the skipped block is `fsucc` when
`xnil = ynil` and `tsucc` otherwise, and it is skipped iff it has exactly
one predecessor. -/
theorem C3_prune_degenerate (preds : Nat → Nat) (stack : List nilnessOfValue)
    (op : BinOpKind) (x y : SSAValue) (pos id s0 s1 : Nat) (rest dominees : List Nat)
    (hop : op = .eql ∨ op = .neq)
    (hx : nilnessOf stack x ≠ unknown) (hy : nilnessOf stack y ≠ unknown)
    (hnil : nilnessOf stack x = isnil ∨ nilnessOf stack y = isnil) :
    (∀ onlyCheck : Bool,
      prune preds onlyCheck (some (.binop op x y pos id)) (s0 :: s1 :: rest) dominees stack =
        some (((dominees.filter fun d =>
            !(d = (if nilnessOf stack x = nilnessOf stack y
                   then (if op = .eql then s1 else s0)
                   else (if op = .eql then s0 else s1)) ∧ preds d = 1 : Bool)).map
          fun d => (d, stack)),
          if onlyCheck then []
          else [⟨pos, if ((nilnessOf stack x = nilnessOf stack y) ↔ op = BinOpKind.eql)
                      then "tautological" else "impossible"⟩])) ∧
    (∀ d : Nat,
      (d ∈ dominees.filter fun d =>
          !(d = (if nilnessOf stack x = nilnessOf stack y
                 then (if op = .eql then s1 else s0)
                 else (if op = .eql then s0 else s1)) ∧ preds d = 1 : Bool)) ↔
        (d ∈ dominees ∧
          ¬(d = (if nilnessOf stack x = nilnessOf stack y
                 then (if op = .eql then s1 else s0)
                 else (if op = .eql then s0 else s1)) ∧ preds d = 1))) := by
  constructor
  · intro onlyCheck
    rcases hop with hop | hop <;> subst hop <;>
      simp only [prune, eqTerm] <;>
      rw [if_pos ⟨hy, hx, hnil⟩] <;>
      cases onlyCheck <;>
      simp [decide_eq_decide]
  · intro d
    simp [List.mem_filter]
    tauto

theorem C3_prune_degenerate_witness :
    prune (fun _ => 1) false
        (some (.binop .eql (.const true 0) (.const false 1) 44 2)) [10, 11] [10, 11]
        [] =
      some ([(11, [])], [⟨44, "impossible"⟩]) := by
  have h := (C3_prune_degenerate (fun _ => 1) [] .eql (.const true 0) (.const false 1)
    44 2 10 11 [] [10, 11] (Or.inl rfl) (by decide) (by decide) (by decide)).1 false
  rw [h]
  rfl

/-- C4: on a block terminating in a nil comparison with exactly one operand
known Nil and the other Unknown, the walker (in both modes, with no
diagnostic) descends into every dominee; the dominee gets the hypothesis
`(other, Nil)` appended when it is the true successor and the negated
hypothesis `(other, NonNil)` when it is the false successor, in either case
only when it has exactly one predecessor, and the unchanged stack
otherwise. -/
theorem C4_prune_hypothesis (preds : Nat → Nat) (stack : List nilnessOfValue)
    (op : BinOpKind) (x y : SSAValue) (pos id s0 s1 : Nat) (rest dominees : List Nat)
    (hop : op = .eql ∨ op = .neq)
    (hcase : (nilnessOf stack x = isnil ∧ nilnessOf stack y = unknown) ∨
             (nilnessOf stack x = unknown ∧ nilnessOf stack y = isnil)) :
    ∀ onlyCheck : Bool,
      prune preds onlyCheck (some (.binop op x y pos id)) (s0 :: s1 :: rest) dominees stack =
        some ((dominees.map fun d =>
          (d, if preds d = 1 then
                if d = (if op = .eql then s0 else s1) then
                  stack ++ [⟨(if nilnessOf stack x = isnil then y else x), isnil⟩]
                else if d = (if op = .eql then s1 else s0) then
                  stack ++ [⟨(if nilnessOf stack x = isnil then y else x), isnonnil⟩]
                else stack
              else stack)), []) := by
  intro onlyCheck
  rcases hop with hop | hop <;> subst hop <;>
    rcases hcase with ⟨h1, h2⟩ | ⟨h1, h2⟩ <;>
      simp [prune, eqTerm, h1, h2, nilnessOfValue.negate, unknown, isnil, isnonnil]

theorem C4_prune_hypothesis_witness :
    prune (fun _ => 1) true
        (some (.binop .neq (.const true 0) (.other 1) 50 2)) [20, 21] [21, 20] [] =
      some ([(21, [⟨.other 1, isnil⟩]), (20, [⟨.other 1, isnonnil⟩])], []) := by
  have h := C4_prune_hypothesis (fun _ => 1) [] .neq (.const true 0) (.other 1)
    50 2 20 21 [] [21, 20] (Or.inr rfl) (Or.inl ⟨by decide, by decide⟩) true
  rw [h]
  decide

/-! ### C7, C10: lemmas about the diagnose scan -/

theorem notNil_funcFacts (env : DiagEnv) (fuel : Nat) (stack : List nilnessOfValue)
    (st : DiagState) (pos : Nat) (v : SSAValue) (descr : String) :
    (notNil env fuel stack st pos v descr).funcFacts = st.funcFacts := by
  unfold notNil
  split
  · rfl
  · split
    · rfl
    · split <;> rfl

theorem notNil_globals_mono (env : DiagEnv) (fuel : Nat) (stack : List nilnessOfValue)
    (st : DiagState) (pos : Nat) (v : SSAValue) (descr : String) :
    st.reportedGlobals ⊆ (notNil env fuel stack st pos v descr).reportedGlobals := by
  unfold notNil
  split
  · exact fun a ha => ha
  · split
    · exact fun a ha => List.mem_cons_of_mem _ ha
    · split <;> exact fun a ha => ha

theorem notNil_marks (env : DiagEnv) (fuel : Nat) (stack : List nilnessOfValue)
    (st : DiagState) (pos : Nat) (op : UnOpKind) (g k : Nat) (descr : String)
    (h : nilnessOf stack (.unop op (.global g true) k) ≠ isnonnil) :
    g ∈ (notNil env fuel stack st pos (.unop op (.global g true) k) descr).reportedGlobals := by
  unfold notNil
  rw [if_neg h]
  simp [globalMarkTarget]

theorem diagSkipMarked_of_firstOp (g : Nat) (i : Instr) (st : DiagState)
    (h1 : firstOpUnOpOfGlobal g i = true) (h2 : g ∈ st.reportedGlobals) :
    diagSkipMarked st i = true := by
  unfold firstOpUnOpOfGlobal at h1
  split at h1
  · next op g' b k heq =>
    rw [beq_iff_eq] at h1
    subst h1
    unfold diagSkipMarked
    rw [heq]
    simpa using h2
  · exact absurd h1 (by simp)

theorem diagStep_marked_skip (env : DiagEnv) (fuel : Nat) (g : Nat) (i : Instr)
    (stack : List nilnessOfValue) (st : DiagState)
    (h1 : firstOpUnOpOfGlobal g i = true) (h2 : g ∈ st.reportedGlobals) :
    diagStep env fuel i stack st = some (stack, st) := by
  unfold diagStep
  rw [if_pos (diagSkipMarked_of_firstOp g i st h1 h2)]

theorem diagCallCase_result (env : DiagEnv) (self : SSAValue) (isVal : Bool)
    (calleeObj : Option Nat) (stack stack' : List nilnessOfValue)
    (st1 st' : DiagState)
    (h : diagCallCase env self isVal calleeObj stack st1 = some (stack', st')) :
    st' = st1 := by
  unfold diagCallCase at h
  repeat' split at h
  all_goals first
    | (cases h; rfl)
    | cases h

theorem diagDispatch_frame (env : DiagEnv) (fuel : Nat) (i : Instr)
    (stack stack' : List nilnessOfValue) (st st' : DiagState)
    (h : diagDispatch env fuel i stack st = some (stack', st')) :
    st.reportedGlobals ⊆ st'.reportedGlobals ∧ st'.funcFacts = st.funcFacts := by
  unfold diagDispatch at h
  split at h
  · -- callK
    have hst := diagCallCase_result _ _ _ _ _ _ _ _ h
    subst hst
    exact ⟨notNil_globals_mono _ _ _ _ _ _ _, notNil_funcFacts _ _ _ _ _ _ _⟩
  · -- fieldAddrK
    cases h
    exact ⟨notNil_globals_mono _ _ _ _ _ _ _, notNil_funcFacts _ _ _ _ _ _ _⟩
  · -- mapUpdateK
    cases h
    exact ⟨notNil_globals_mono _ _ _ _ _ _ _, notNil_funcFacts _ _ _ _ _ _ _⟩
  · -- sliceK
    split at h
    · cases h
      exact ⟨notNil_globals_mono _ _ _ _ _ _ _, notNil_funcFacts _ _ _ _ _ _ _⟩
    · cases h
      exact ⟨fun a ha => ha, rfl⟩
  · -- storeK
    cases h
    exact ⟨notNil_globals_mono _ _ _ _ _ _ _, notNil_funcFacts _ _ _ _ _ _ _⟩
  · -- typeAssertK
    split at h
    · cases h
      exact ⟨fun a ha => ha, rfl⟩
    · cases h
      exact ⟨notNil_globals_mono _ _ _ _ _ _ _, notNil_funcFacts _ _ _ _ _ _ _⟩
  · -- unOpK
    split at h
    · split at h
      · cases h
        exact ⟨notNil_globals_mono _ _ _ _ _ _ _, notNil_funcFacts _ _ _ _ _ _ _⟩
      · cases h
        exact ⟨fun a ha => ha, rfl⟩
    · cases h
      exact ⟨fun a ha => ha, rfl⟩
  · -- returnK
    cases h
    exact ⟨fun a ha => ha, rfl⟩
  · -- otherK
    cases h
    exact ⟨fun a ha => ha, rfl⟩

theorem diagStep_frame (env : DiagEnv) (fuel : Nat) (i : Instr)
    (stack stack' : List nilnessOfValue) (st st' : DiagState)
    (h : diagStep env fuel i stack st = some (stack', st')) :
    st.reportedGlobals ⊆ st'.reportedGlobals ∧ st'.funcFacts = st.funcFacts := by
  unfold diagStep at h
  split at h
  · cases h
    exact ⟨fun a ha => ha, rfl⟩
  · split at h
    · cases h
      exact ⟨fun a ha => ha, rfl⟩
    · exact diagDispatch_frame env fuel i stack stack' st st' h

theorem diagLoop_filter (env : DiagEnv) (fuel : Nat) (g : Nat) :
    ∀ (instrs : List Instr) (stack : List nilnessOfValue) (st : DiagState),
      g ∈ st.reportedGlobals →
      diagLoop env fuel instrs stack st =
        diagLoop env fuel (instrs.filter fun i => !firstOpUnOpOfGlobal g i) stack st := by
  intro instrs
  induction instrs with
  | nil => intro stack st _; rfl
  | cons i rest ih =>
    intro stack st hg
    by_cases hi : firstOpUnOpOfGlobal g i = true
    · rw [List.filter_cons_of_neg (by simp [hi])]
      show (match diagStep env fuel i stack st with
            | none => none
            | some (stack', st') => diagLoop env fuel rest stack' st') = _
      rw [diagStep_marked_skip env fuel g i stack st hi hg]
      exact ih stack st hg
    · rw [List.filter_cons_of_pos (by simp [hi])]
      show (match diagStep env fuel i stack st with
            | none => none
            | some (stack', st') => diagLoop env fuel rest stack' st') =
           (match diagStep env fuel i stack st with
            | none => none
            | some (stack', st') =>
              diagLoop env fuel (rest.filter fun i => !firstOpUnOpOfGlobal g i) stack' st')
      cases h : diagStep env fuel i stack st with
      | none => rfl
      | some p =>
        obtain ⟨stack', st'⟩ := p
        exact ih stack' st' ((diagStep_frame env fuel i stack stack' st st' h).1 hg)

theorem diagLoop_funcFacts (env : DiagEnv) (fuel : Nat) :
    ∀ (instrs : List Instr) (stack : List nilnessOfValue) (st : DiagState)
      (p : List nilnessOfValue × DiagState),
      diagLoop env fuel instrs stack st = some p → p.2.funcFacts = st.funcFacts := by
  intro instrs
  induction instrs with
  | nil =>
    intro stack st p h
    cases h
    rfl
  | cons i rest ih =>
    intro stack st p h
    unfold diagLoop at h
    split at h
    · exact absurd h (by simp)
    · next stack' st' heq =>
      rw [(diagStep_frame env fuel i stack stack' st st' heq).2.symm]
      exact ih stack' st' p h

/-! ### C7 -/

/-- C7: once a `nilderef` diagnostic is reported by `notNil` on a load of a
same-package global `g`, the `alreadyReportedGlobal` marker for `g` is
exported; any instruction whose first operand is a unary op on a global
bearing the marker is skipped entirely (the step leaves stack and state
unchanged); markers are never removed by a step; hence the remainder of the
diagnose scan behaves as if every instruction whose first operand loads `g`
were deleted — no further diagnostic is ever emitted for `g`. -/
theorem C7_global_marker (env : DiagEnv) (fuel : Nat) (g : Nat) :
    (∀ (stack : List nilnessOfValue) (st : DiagState) (pos : Nat) (op : UnOpKind)
        (k : Nat) (descr : String),
      nilnessOf stack (.unop op (.global g true) k) ≠ isnonnil →
      g ∈ (notNil env fuel stack st pos (.unop op (.global g true) k) descr).reportedGlobals) ∧
    (∀ (i : Instr) (stack : List nilnessOfValue) (st : DiagState),
      firstOpUnOpOfGlobal g i = true → g ∈ st.reportedGlobals →
      diagStep env fuel i stack st = some (stack, st)) ∧
    (∀ (i : Instr) (stack stack' : List nilnessOfValue) (st st' : DiagState),
      diagStep env fuel i stack st = some (stack', st') →
      st.reportedGlobals ⊆ st'.reportedGlobals) ∧
    (∀ (instrs : List Instr) (stack : List nilnessOfValue) (st : DiagState),
      g ∈ st.reportedGlobals →
      diagLoop env fuel instrs stack st =
        diagLoop env fuel (instrs.filter fun i => !firstOpUnOpOfGlobal g i) stack st) := by
  refine ⟨?_, ?_, ?_, ?_⟩
  · intro stack st pos op k descr h
    exact notNil_marks env fuel stack st pos op g k descr h
  · intro i stack st h1 h2
    exact diagStep_marked_skip env fuel g i stack st h1 h2
  · intro i stack stack' st st' h
    exact (diagStep_frame env fuel i stack stack' st st' h).1
  · exact diagLoop_filter env fuel g

theorem C7_global_marker_witness :
    3 ∈ (notNil ⟨fun _ => none⟩ 0 [] ⟨[], [], [], []⟩ 7 (.unop .mul (.global 3 true) 9)
          "load").reportedGlobals ∧
    diagStep ⟨fun _ => none⟩ 0 ⟨0, 5, .storeK (.unop .mul (.global 3 true) 9)⟩ []
        ⟨[], [3], [], []⟩ = some ([], ⟨[], [3], [], []⟩) :=
  ⟨(C7_global_marker ⟨fun _ => none⟩ 0 3).1 [] ⟨[], [], [], []⟩ 7 .mul 9 "load" (by decide),
   (C7_global_marker ⟨fun _ => none⟩ 0 3).2.1 ⟨0, 5, .storeK (.unop .mul (.global 3 true) 9)⟩
     [] ⟨[], [3], [], []⟩ (by decide) (by decide)⟩

/-! ### C10 -/

/-- C10: the diagnose half of `checkFunc` never modifies any procedure
summary and reports no update: whenever it completes, the returned flag is
`false` and the `functionInfo` object-fact store is unchanged (the only
state the scan's reporting adds to are the diagnostics, the
`alreadyReportedGlobal` markers and the in-memory already-reported set). -/
theorem C10_diagnose_frame (env : DiagEnv) (fuel : Nat) (foName : Option (List Char))
    (paNa : posToNilnesses) (params freeVars : List SSAValue) (instrs : List Instr)
    (st st' : DiagState) (b : Bool)
    (h : checkFuncDiagnose env fuel foName paNa params freeVars instrs st = some (st', b)) :
    b = false ∧ st'.funcFacts = st.funcFacts := by
  unfold checkFuncDiagnose at h
  split at h
  · cases h
    exact ⟨rfl, rfl⟩
  · exact absurd h (by simp)
  · next stack heq =>
    cases hl : diagLoop env fuel instrs stack st with
    | none =>
      rw [hl] at h
      exact absurd h (by simp)
    | some p =>
      rw [hl] at h
      cases h
      exact ⟨rfl, diagLoop_funcFacts env fuel instrs stack st p hl⟩

theorem C10_diagnose_frame_witness :
    (false = false) ∧
    (⟨[], [], [], []⟩ : DiagState).funcFacts = (⟨[], [], [], []⟩ : DiagState).funcFacts :=
  C10_diagnose_frame ⟨fun _ => none⟩ 0 none [] [] [] [] ⟨[], [], [], []⟩ ⟨[], [], [], []⟩
    false rfl

/-! ### C9: the dominance walk -/

theorem visitWalk_immediate {n : Nat} (dominees : Fin n → List (Fin n))
    (fuel : Nat) (b : Fin n) (seen : Finset (Fin n)) (trace : List (Fin n))
    (hb : b ∈ seen) : visitWalk dominees fuel b (seen, trace) = (seen, trace) := by
  cases fuel with
  | zero => rfl
  | succ k => rw [visitWalk, if_pos hb]

theorem visitWalk_seen_mono {n : Nat} (dominees : Fin n → List (Fin n)) :
    ∀ (fuel : Nat) (b : Fin n) (st : Finset (Fin n) × List (Fin n)),
      st.1 ⊆ (visitWalk dominees fuel b st).1 := by
  intro fuel
  induction fuel with
  | zero => intro b st; exact Finset.Subset.refl _
  | succ k ih =>
    intro b st
    obtain ⟨seen, trace⟩ := st
    by_cases hb : b ∈ seen
    · rw [visitWalk, if_pos hb]
    · rw [visitWalk, if_neg hb]
      have hfold : ∀ (l : List (Fin n)) (acc : Finset (Fin n) × List (Fin n)),
          acc.1 ⊆ (l.foldl (fun a d => visitWalk dominees k d a) acc).1 := by
        intro l
        induction l with
        | nil => intro acc; exact Finset.Subset.refl _
        | cons d ds ihl =>
          intro acc
          exact (ih d acc).trans (ihl (visitWalk dominees k d acc))
      exact (Finset.subset_insert b seen).trans
        (hfold (dominees b) (insert b seen, trace ++ [b]))

theorem visitWalk_trace_inv {n : Nat} (dominees : Fin n → List (Fin n)) :
    ∀ (fuel : Nat) (b : Fin n) (seen : Finset (Fin n)) (trace : List (Fin n)),
      trace.Nodup → (∀ x ∈ trace, x ∈ seen) →
      ((visitWalk dominees fuel b (seen, trace)).2.Nodup ∧
        ∀ x ∈ (visitWalk dominees fuel b (seen, trace)).2,
          x ∈ (visitWalk dominees fuel b (seen, trace)).1) := by
  intro fuel
  induction fuel with
  | zero => intro b seen trace h1 h2; exact ⟨h1, h2⟩
  | succ k ih =>
    intro b seen trace h1 h2
    by_cases hb : b ∈ seen
    · rw [visitWalk, if_pos hb]
      exact ⟨h1, h2⟩
    · rw [visitWalk, if_neg hb]
      have hbt : b ∉ trace := fun hx => hb (h2 b hx)
      have hnodup : (trace ++ [b]).Nodup := by
        simp [List.nodup_append, h1, hbt]
      have hmem : ∀ x ∈ trace ++ [b], x ∈ insert b seen := by
        intro x hx
        rcases List.mem_append.mp hx with hx | hx
        · exact Finset.mem_insert_of_mem (h2 x hx)
        · simp only [List.mem_singleton] at hx
          subst hx
          exact Finset.mem_insert_self _ _
      have hfold : ∀ (l : List (Fin n)) (acc : Finset (Fin n) × List (Fin n)),
          acc.2.Nodup → (∀ x ∈ acc.2, x ∈ acc.1) →
          ((l.foldl (fun a d => visitWalk dominees k d a) acc).2.Nodup ∧
            ∀ x ∈ (l.foldl (fun a d => visitWalk dominees k d a) acc).2,
              x ∈ (l.foldl (fun a d => visitWalk dominees k d a) acc).1) := by
        intro l
        induction l with
        | nil => intro acc ha hb'; exact ⟨ha, hb'⟩
        | cons d ds ihl =>
          intro acc ha hb'
          obtain ⟨s, t⟩ := acc
          have hstep := ih d s t ha hb'
          exact ihl (visitWalk dominees k d (s, t)) hstep.1 hstep.2
      exact hfold (dominees b) (insert b seen, trace ++ [b]) hnodup hmem

theorem visitWalk_stable {n : Nat} (dominees : Fin n → List (Fin n)) :
    ∀ (fuel : Nat) (b : Fin n) (seen : Finset (Fin n)) (trace : List (Fin n)),
      (Finset.univ \ seen).card ≤ fuel →
      visitWalk dominees (fuel + 1) b (seen, trace) =
        visitWalk dominees fuel b (seen, trace) := by
  intro fuel
  induction fuel with
  | zero =>
    intro b seen trace hcard
    have hb : b ∈ seen := by
      by_contra hb
      have hm : b ∈ Finset.univ \ seen := Finset.mem_sdiff.mpr ⟨Finset.mem_univ b, hb⟩
      have := Finset.card_pos.mpr ⟨b, hm⟩
      omega
    exact visitWalk_immediate dominees (0 + 1) b seen trace hb
  | succ k ih =>
    intro b seen trace hcard
    by_cases hb : b ∈ seen
    · rw [visitWalk_immediate dominees (k + 1 + 1) b seen trace hb,
        visitWalk_immediate dominees (k + 1) b seen trace hb]
    · have hcard' : (Finset.univ \ insert b seen).card ≤ k := by
        have hm : b ∈ Finset.univ \ seen := Finset.mem_sdiff.mpr ⟨Finset.mem_univ b, hb⟩
        have hins : Finset.univ \ insert b seen = (Finset.univ \ seen).erase b := by
          ext x
          simp only [Finset.mem_sdiff, Finset.mem_insert, Finset.mem_erase,
            Finset.mem_univ, true_and]
          tauto
        rw [hins, Finset.card_erase_of_mem hm]
        omega
      rw [visitWalk, if_neg hb, visitWalk, if_neg hb]
      have hfold : ∀ (l : List (Fin n)) (acc : Finset (Fin n) × List (Fin n)),
          (Finset.univ \ acc.1).card ≤ k →
          l.foldl (fun a d => visitWalk dominees (k + 1) d a) acc =
            l.foldl (fun a d => visitWalk dominees k d a) acc := by
        intro l
        induction l with
        | nil => intro acc _; rfl
        | cons d ds ihl =>
          intro acc hacc
          have h1 : visitWalk dominees (k + 1) d acc = visitWalk dominees k d acc := by
            obtain ⟨s, t⟩ := acc
            exact ih d s t hacc
          rw [List.foldl_cons, List.foldl_cons, h1]
          apply ihl
          have hsub := visitWalk_seen_mono dominees k d acc
          have hsd : Finset.univ \ (visitWalk dominees k d acc).1 ⊆ Finset.univ \ acc.1 :=
            Finset.sdiff_subset_sdiff (Finset.Subset.refl _) hsub
          exact (Finset.card_le_card hsd).trans hacc
      exact hfold (dominees b) (insert b seen, trace ++ [b]) hcard'

theorem visitWalk_fuel_ge {n : Nat} (dominees : Fin n → List (Fin n)) (b : Fin n) :
    ∀ k : Nat, n ≤ k →
      visitWalk dominees k b (∅, []) = visitWalk dominees n b (∅, []) := by
  intro k
  induction k with
  | zero =>
    intro hk
    have h0 : n = 0 := Nat.le_zero.mp hk
    subst h0
    rfl
  | succ m ihm =>
    intro hk
    by_cases hm : n ≤ m
    · rw [← ihm hm]
      apply visitWalk_stable
      simpa [Finset.card_univ] using hm
    · have hnm : n = m + 1 := by omega
      subst hnm
      rfl

/-- C9: the dominance-order walk of `checkFunc` terminates and visits each
basic block at most once.  The `seen` bitset is set on first entry and makes
every later visit of a block return immediately with an unchanged state;
fuel equal to the number of blocks suffices (larger fuel changes nothing,
i.e. the recursion bottoms out); and the trace of blocks whose body is
processed contains no duplicates. -/
theorem C9_walk {n : Nat} (dominees : Fin n → List (Fin n)) (b : Fin n) :
    (∀ (fuel : Nat) (seen : Finset (Fin n)) (trace : List (Fin n)),
      b ∈ seen → visitWalk dominees fuel b (seen, trace) = (seen, trace)) ∧
    (∀ k : Nat, n ≤ k →
      visitWalk dominees k b (∅, []) = visitWalk dominees n b (∅, [])) ∧
    (visitWalk dominees n b (∅, [])).2.Nodup := by
  refine ⟨?_, visitWalk_fuel_ge dominees b, ?_⟩
  · intro fuel seen trace hb
    exact visitWalk_immediate dominees fuel b seen trace hb
  · exact (visitWalk_trace_inv dominees n b ∅ [] List.nodup_nil (by simp)).1

theorem C9_walk_witness :
    visitWalk (fun _ : Fin 1 => [0]) 5 0 ({0}, []) = ({0}, []) ∧
    visitWalk (fun _ : Fin 1 => [0]) 3 0 (∅, []) = visitWalk (fun _ : Fin 1 => [0]) 1 0 (∅, []) :=
  ⟨(C9_walk (fun _ : Fin 1 => [0]) 0).1 5 {0} [] (by decide),
   (C9_walk (fun _ : Fin 1 => [0]) 0).2.1 3 (by decide)⟩

end Knil
